import Mathlib

/-!
Shallow embedding of `clean_data.py` (MITRE ATT&CK STIX flattening pipeline).

Python strings are modelled as `String` (a wrapper around `List Char`, matching
Python's sequence-of-code-points view); character-level operations (slicing,
splitting, lower-casing, stripping) are performed on `String.data`.
Python dicts keyed by object identifier are modelled as association lists in
insertion order, with in-place overwrite on key collision (Python dict update
semantics).  Python sets are modelled as `List String` used only through
membership.  File I/O is modelled by passing the parsed contents of each input
file as data.
-/

namespace CleanData

/-- Model of Python `str.lower()` (code-point-wise lowering; the inputs the
pipeline cares about are ASCII). -/
def lowerL (l : List Char) : List Char := l.map Char.toLower

/-- Model of Python `str.strip()` with no argument: drop whitespace from both
ends. -/
def stripL (l : List Char) : List Char :=
  ((l.dropWhile Char.isWhitespace).reverse.dropWhile Char.isWhitespace).reverse

/-- Model of Python `str.split(sep)` for a one-character separator: always
returns a non-empty list of (possibly empty) fragments. -/
def splitOnChar (c : Char) : List Char → List (List Char)
  | [] => [[]]
  | x :: xs =>
    match splitOnChar c xs with
    | [] => [[]]
    | h :: t => if x = c then [] :: h :: t else (x :: h) :: t

/-- Model of Python `needle in hay` substring containment. -/
def containsSub (needle : List Char) : List Char → Bool
  | [] => needle.isEmpty
  | c :: rest => needle.isPrefixOf (c :: rest) || containsSub needle rest

/-- Model of Python `str.startswith`. -/
def strStartsWith (s p : String) : Bool := p.data.isPrefixOf s.data

/-- Lexicographic `≤` on code-point lists, modelling Python string comparison. -/
def charListLe : List Char → List Char → Bool
  | [], _ => true
  | _ :: _, [] => false
  | a :: as, b :: bs => if a = b then charListLe as bs else decide (a < b)

/-- Model of Python truthiness of an `Optional[str]`: `None` and `''` are
falsy. -/
def idTruthy : Option String → Bool
  | none => false
  | some s => !(s = "")

/-- One step of Python `str.title()`: alphabetic characters following an
alphabetic character are lowered, others are uppered. -/
def titleCaseGo : Bool → List Char → List Char
  | _, [] => []
  | prevAlpha, c :: cs =>
    if c.isAlpha then
      (if prevAlpha then c.toLower else c.toUpper) :: titleCaseGo true cs
    else c :: titleCaseGo false cs

/-- Model of Python `str.title()`. -/
def titleCase (l : List Char) : List Char := titleCaseGo false l

/-- One entry of an object's `external_references` list.  Fields read with
`dict.get(k, default)` in the source are modelled with the corresponding
default; `external_id` keeps presence information because the source tests
`'external_id' in ref`. -/
structure ExtRef where
  source_name : String := ""
  description : String := ""
  url : String := ""
  external_id : Option String := none
  deriving DecidableEq

/-- One entry of an attack pattern's `kill_chain_phases` list. -/
structure KillChainPhase where
  kill_chain_name : String := ""
  phase_name : String := ""
  deriving DecidableEq

/-- A STIX object, with every field `clean_data.py` reads.  Fields accessed via
`obj.get(k, default)` carry that default; `id` keeps presence information
because the source tests its truthiness. -/
structure StixObject where
  type_ : String := ""
  id : Option String := none
  name : String := ""
  description : String := ""
  external_references : List ExtRef := []
  kill_chain_phases : List KillChainPhase := []
  relationship_type : String := ""
  source_ref : String := ""
  target_ref : String := ""
  x_mitre_platforms : List String := []
  x_mitre_detection : String := ""
  x_mitre_data_sources : List String := []
  x_mitre_is_subtechnique : Bool := false
  x_mitre_deprecated : Bool := false
  x_mitre_domains : List String := []
  x_mitre_version : String := ""
  created : String := ""
  modified : String := ""
  x_mitre_permissions_required : List String := []
  x_mitre_impact_type : List String := []
  x_mitre_system_requirements : List String := []
  x_mitre_defense_bypassed : List String := []
  x_mitre_remote_support : Bool := false
  deriving DecidableEq

/-- A brief mitigation/group/software reference stored in a technique record. -/
structure BriefRef where
  name : String
  description : String
  id : Option String
  deriving DecidableEq

/-- The dictionary returned by `find_relationships`. -/
structure RelResult where
  mitigations : List BriefRef
  groups : List BriefRef
  software : List BriefRef
  deriving DecidableEq

/-- A normalized external reference kept in a technique record. -/
structure ExtRefOut where
  source_name : String
  description : String
  url : String
  deriving DecidableEq

/-- The `tags` sub-dictionary of a technique record. -/
structure Tags where
  is_subtechnique : Bool
  deprecated : Bool
  domains : List String
  deriving DecidableEq

/-- The flattened output record built by `extract_technique_data`. -/
structure TechniqueRecord where
  technique_id : String
  name : String
  description : String
  tactics : List String
  platforms : List String
  detection : String
  mitigations : List BriefRef
  data_sources : List String
  procedure_examples : List String
  related_groups : List BriefRef
  related_software : List BriefRef
  external_references : List ExtRefOut
  tags : Tags
  version : String
  created : String
  modified : String
  permissions_required : List String
  impact_type : List String
  system_requirements : List String
  defense_bypassed : List String
  remote_support : Bool
  deriving DecidableEq

/-- The partitioned view of one input file, as returned by
`process_stix_data`: four identifier-keyed buckets plus the relationship
edges in file order. -/
structure Bundle where
  attack_patterns : List (String × StixObject)
  mitigations : List (String × StixObject)
  groups : List (String × StixObject)
  software : List (String × StixObject)
  relationships : List StixObject
  deriving DecidableEq

/-- One input file of a folder: its basename and the parsed `objects` list of
its STIX bundle. -/
structure InputFile where
  name : String
  objs : List StixObject
  deriving DecidableEq

/-- The `metadata` block of an output document. -/
structure Metadata where
  source : String
  extraction_date : String
  total_techniques : Nat
  description : String
  processed_files : List String
  deriving DecidableEq

/-- A consolidated output document for one folder. -/
structure OutputDoc where
  metadata : Metadata
  techniques : List TechniqueRecord
  deriving DecidableEq

/-- `extract_technique_id`: first external reference whose `source_name` is
`mitre-attack` and which carries an `external_id`. -/
def extractTechniqueId : List ExtRef → Option String
  | [] => none
  | r :: rest =>
    if r.source_name = "mitre-attack" ∧ r.external_id.isSome then r.external_id
    else extractTechniqueId rest

/-- `extract_tactics`: phase names of `mitre-attack` kill-chain phases,
hyphens replaced by spaces and title-cased, skipping empty results. -/
def extractTactics (phases : List KillChainPhase) : List String :=
  phases.foldl (fun acc ph =>
    if ph.kill_chain_name = "mitre-attack" then
      let t := titleCase ((ph.phase_name.data).map (fun c => if c = '-' then ' ' else c))
      if t ≠ [] then acc ++ [String.mk t] else acc
    else acc) []

/-- `extract_external_references`: every reference whose `source_name` is not
`mitre-attack`, normalized. -/
def extractExternalReferences (refs : List ExtRef) : List ExtRefOut :=
  refs.foldl (fun acc r =>
    if r.source_name ≠ "mitre-attack" then
      acc ++ [{ source_name := r.source_name, description := r.description, url := r.url }]
    else acc) []

/-- The description-truncation expression used (three times, inline) in
`find_relationships`: `d[:200] + '...' if len(d) > 200 else d`. -/
def truncateDesc (s : String) : String :=
  if 200 < s.data.length then String.mk (s.data.take 200 ++ "...".data) else s

/-- The brief-reference dictionary built inline in `find_relationships` for a
mitigation, group, or software source object. -/
def mkBriefRef (o : StixObject) : BriefRef :=
  { name := o.name
    description := truncateDesc o.description
    id := extractTechniqueId o.external_references }

/-- Lookup in an identifier-keyed bucket: Python `k in d` / `d[k]`. -/
def dictFind (d : List (String × StixObject)) (k : String) : Option StixObject :=
  (d.find? (fun p => p.1 = k)).map (fun p => p.2)

/-- `find_relationships`: walk the edges in order; an edge whose `target_ref`
starts with `attack-pattern--` contributes a brief reference according to its
`relationship_type` and the bucket its `source_ref` resolves in.  The
`technique_id` parameter is present in the source but never read by it. -/
def findRelationships (technique_id : String) (relationships : List StixObject)
    (mitigations groups software : List (String × StixObject)) : RelResult :=
  relationships.foldl (fun result rel =>
    if strStartsWith rel.target_ref "attack-pattern--" then
      if rel.relationship_type = "mitigates" then
        match dictFind mitigations rel.source_ref with
        | some m => { result with mitigations := result.mitigations ++ [mkBriefRef m] }
        | none => result
      else if rel.relationship_type = "uses" then
        match dictFind groups rel.source_ref with
        | some g => { result with groups := result.groups ++ [mkBriefRef g] }
        | none =>
          match dictFind software rel.source_ref with
          | some s => { result with software := result.software ++ [mkBriefRef s] }
          | none => result
      else result
    else result) ⟨[], [], []⟩

/-- Python dict insertion `d[k] = v`: overwrite in place on an existing key,
else append. -/
def dictInsert (d : List (String × StixObject)) (k : String) (v : StixObject) :
    List (String × StixObject) :=
  if d.any (fun p => p.1 = k) then d.map (fun p => if p.1 = k then (k, v) else p)
  else d ++ [(k, v)]

/-- Python dict union `a | b`: `a`'s entries (values overwritten by `b` on
collision) followed by `b`'s new keys in order. -/
def dictUnion (a b : List (String × StixObject)) : List (String × StixObject) :=
  b.foldl (fun d p => dictInsert d p.1 p.2) a

/-- One step of the partition loop of `process_stix_data`, restricted to the
bucket of type `ty`: a non-relationship object of that type with a truthy
identifier is inserted, everything else leaves the bucket unchanged. -/
def bucketStep (ty : String) (d : List (String × StixObject)) (o : StixObject) :
    List (String × StixObject) :=
  if o.type_ = "relationship" then d
  else match o.id with
    | some i => if i ≠ "" ∧ o.type_ = ty then dictInsert d i o else d
    | none => d

/-- The bucket `objects_by_type[ty]` built by the partition loop of
`process_stix_data`: non-relationship objects of type `ty` with a truthy
identifier, inserted in file order. -/
def bucketOf (ty : String) (objs : List StixObject) : List (String × StixObject) :=
  objs.foldl (bucketStep ty) []

/-- `process_stix_data`: partition a bundle's object list into the four typed
buckets (software is `malware | tool`) plus the relationship edges. -/
def processStixData (objs : List StixObject) : Bundle :=
  { attack_patterns := bucketOf "attack-pattern" objs
    mitigations := bucketOf "course-of-action" objs
    groups := bucketOf "intrusion-set" objs
    software := dictUnion (bucketOf "malware" objs) (bucketOf "tool" objs)
    relationships := objs.filter (fun o => o.type_ = "relationship") }

/-- The substrings scanned for by the procedure-example heuristic. -/
def keywordList : List (List Char) :=
  ["example".data, "observed".data, "used by".data, "employed by".data]

/-- The procedure-example extraction loop of `extract_technique_data`:
if the lowered description contains `example` or `observed`, split on `.` and
keep each stripped fragment containing a keyword, re-appending a period. -/
def procedureExamples (description : String) : List String :=
  if containsSub "example".data (lowerL description.data)
      || containsSub "observed".data (lowerL description.data) then
    (splitOnChar '.' description.data).foldl (fun acc sentence =>
      if keywordList.any (fun kw => containsSub kw (lowerL sentence)) then
        acc ++ [String.mk (stripL sentence ++ ['.'])]
      else acc) []
  else []

/-- `extract_technique_data`: resolve one attack pattern against its bundle,
or yield nothing when the technique identifier is falsy. -/
def extractTechniqueData (attack_pattern : StixObject) (pd : Bundle) :
    Option TechniqueRecord :=
  match extractTechniqueId attack_pattern.external_references with
  | none => none
  | some tid =>
    if tid = "" then none
    else
      let rd := findRelationships (attack_pattern.id.getD "") pd.relationships
        pd.mitigations pd.groups pd.software
      some
        { technique_id := tid
          name := attack_pattern.name
          description := attack_pattern.description
          tactics := extractTactics attack_pattern.kill_chain_phases
          platforms := attack_pattern.x_mitre_platforms
          detection := attack_pattern.x_mitre_detection
          mitigations := rd.mitigations
          data_sources := attack_pattern.x_mitre_data_sources
          procedure_examples := procedureExamples attack_pattern.description
          related_groups := rd.groups
          related_software := rd.software
          external_references := extractExternalReferences attack_pattern.external_references
          tags :=
            { is_subtechnique := attack_pattern.x_mitre_is_subtechnique
              deprecated := attack_pattern.x_mitre_deprecated
              domains := attack_pattern.x_mitre_domains }
          version := attack_pattern.x_mitre_version
          created := attack_pattern.created
          modified := attack_pattern.modified
          permissions_required := attack_pattern.x_mitre_permissions_required
          impact_type := attack_pattern.x_mitre_impact_type
          system_requirements := attack_pattern.x_mitre_system_requirements
          defense_bypassed := attack_pattern.x_mitre_defense_bypassed
          remote_support := attack_pattern.x_mitre_remote_support }

/-- The per-file resolution loop of `process_folder`, with the global
deduplication set: attack patterns in bucket order, each resolved record kept
only when its identifier is not yet seen. -/
def dedupLoop (pd : Bundle) :
    List (String × StixObject) → List TechniqueRecord → List String →
    List TechniqueRecord × List String
  | [], acc, seen => (acc, seen)
  | p :: ps, acc, seen =>
    match extractTechniqueData p.2 pd with
    | some r =>
      if r.technique_id ∈ seen then dedupLoop pd ps acc seen
      else dedupLoop pd ps (acc ++ [r]) (r.technique_id :: seen)
    | none => dedupLoop pd ps acc seen

/-- All records a single file resolves to, in bucket order, ignoring
deduplication. -/
def resolveList (pd : Bundle) : List TechniqueRecord :=
  pd.attack_patterns.filterMap (fun p => extractTechniqueData p.2 pd)

/-- `resolveList` applied to one input file's partitioned bundle. -/
def fileResolve (f : InputFile) : List TechniqueRecord :=
  resolveList (processStixData f.objs)

/-- Insert into a list sorted by a string key (the stable placement used to
model Python's stable sort). -/
def insertByKey (key : α → List Char) (x : α) : List α → List α
  | [] => [x]
  | y :: ys => if charListLe (key x) (key y) then x :: y :: ys else y :: insertByKey key x ys

/-- Stable sort by a string key, modelling Python `list.sort(key=...)`. -/
def sortByKey (key : α → List Char) (l : List α) : List α :=
  l.foldr (insertByKey key) []

/-- The per-folder file loop of `process_folder` combined with
`append_techniques_to_file`: resolve each file against the running seen-set,
append the surviving records and re-sort by `technique_id`, count them, and
record the processed filename. -/
def processLoop :
    List InputFile → List String → List TechniqueRecord → List String → Nat →
    List TechniqueRecord × List String × Nat
  | [], _, techs, names, total => (techs, names, total)
  | f :: rest, seen, techs, names, total =>
    let pd := processStixData f.objs
    let resolved := dedupLoop pd pd.attack_patterns [] seen
    let techs' :=
      if resolved.1.isEmpty then techs
      else sortByKey (fun r => r.technique_id.data) (techs ++ resolved.1)
    processLoop rest resolved.2 techs' (names ++ [f.name]) (total + resolved.1.length)

/-- The extraction-date constant written into every document. -/
def extractionDate : String := "2025-07-29"

/-- `process_folder` on the parsed contents of a folder: files sorted by name,
then folded through `processLoop`; metadata fields as written by the source. -/
def processFolder (folderLabel : String) (files : List InputFile) : OutputDoc :=
  let sortedFiles := sortByKey (fun f => f.name.data) files
  let res := processLoop sortedFiles [] [] [] 0
  { metadata :=
      { source := "MITRE ATT&CK " ++ folderLabel
        extraction_date := extractionDate
        total_techniques := res.2.2
        description := "Comprehensive technique data extracted from " ++ folderLabel
          ++ " MITRE ATT&CK framework"
        processed_files := res.2.1 }
    techniques := res.1 }

/-- The claim's literal reading of the procedure-example step: fragments
retained verbatim with a trailing period re-appended (no stripping). -/
def procedureExamplesClaim (description : String) : List String :=
  if containsSub "example".data (lowerL description.data)
      || containsSub "observed".data (lowerL description.data) then
    ((splitOnChar '.' description.data).filter
      (fun fr => keywordList.any (fun kw => containsSub kw (lowerL fr)))).map
      (fun fr => String.mk (fr ++ ['.']))
  else []

/-- The amended reading of the procedure-example step: each retained fragment
is stripped of surrounding whitespace before the period is re-appended. -/
def procedureExamplesAmended (description : String) : List String :=
  if containsSub "example".data (lowerL description.data)
      || containsSub "observed".data (lowerL description.data) then
    ((splitOnChar '.' description.data).filter
      (fun fr => keywordList.any (fun kw => containsSub kw (lowerL fr)))).map
      (fun fr => String.mk (stripL fr ++ ['.']))
  else []


/-! Concrete inputs used by the witnesses and counterexamples below. -/

/-- An attack pattern with MITRE identifier `T0001`. -/
def apAlpha : StixObject :=
  { type_ := "attack-pattern", id := some "attack-pattern--alpha", name := "Alpha",
    external_references := [{ source_name := "mitre-attack", external_id := some "T0001" }] }

/-- A second attack pattern with MITRE identifier `T0002`. -/
def apBeta : StixObject :=
  { type_ := "attack-pattern", id := some "attack-pattern--beta", name := "Beta",
    external_references := [{ source_name := "mitre-attack", external_id := some "T0002" }] }

/-- A mitigation (course of action). -/
def coaBlock : StixObject :=
  { type_ := "course-of-action", id := some "course-of-action--block", name := "Block",
    description := "Blocks the technique",
    external_references := [{ source_name := "mitre-attack", external_id := some "M0001" }] }

/-- A `mitigates` edge whose target is `apBeta`, not `apAlpha`. -/
def edgeMitigatesBeta : StixObject :=
  { type_ := "relationship", id := some "relationship--r1",
    relationship_type := "mitigates", source_ref := "course-of-action--block",
    target_ref := "attack-pattern--beta" }

/-- A bundle in which the only edge targets `apBeta`. -/
def stixC1 : List StixObject := [apAlpha, apBeta, coaBlock, edgeMitigatesBeta]

/-- An attack pattern resolving to `T1059`, stored in the first file. -/
def apT1a : StixObject :=
  { type_ := "attack-pattern", id := some "attack-pattern--a1", name := "From file A",
    external_references := [{ source_name := "mitre-attack", external_id := some "T1059" }] }

/-- A different attack pattern resolving to the same `T1059`, in the second file. -/
def apT1b : StixObject :=
  { type_ := "attack-pattern", id := some "attack-pattern--b1", name := "From file B",
    external_references := [{ source_name := "mitre-attack", external_id := some "T1059" }] }

/-- First input file (lexicographically first name). -/
def fileA : InputFile := { name := "a.json", objs := [apT1a] }

/-- Second input file. -/
def fileB : InputFile := { name := "b.json", objs := [apT1b] }

/-- A malware object. -/
def malwS : StixObject :=
  { type_ := "malware", id := some "software--s1", name := "EvilKit",
    description := "malware entry" }

/-- A tool object sharing `malwS`'s identifier. -/
def toolS : StixObject :=
  { type_ := "tool", id := some "software--s1", name := "PsExec",
    description := "tool entry" }

/-- A `uses` edge from the shared software identifier to an attack pattern. -/
def relUsesS : StixObject :=
  { type_ := "relationship", id := some "relationship--u1",
    relationship_type := "uses", source_ref := "software--s1",
    target_ref := "attack-pattern--alpha" }

/-- An attack pattern with no MITRE external reference. -/
def apNoMitre : StixObject :=
  { type_ := "attack-pattern", id := some "attack-pattern--nomitre",
    external_references := [{ source_name := "capec", external_id := some "CAPEC-97" }] }

/-- A MITRE external reference whose `external_id` is the empty string. -/
def refMitreEmpty : ExtRef := { source_name := "mitre-attack", external_id := some "" }

/-- An attack pattern whose only MITRE reference carries an empty `external_id`. -/
def apEmptyId : StixObject :=
  { type_ := "attack-pattern", id := some "attack-pattern--empty",
    external_references := [refMitreEmpty] }

/-- A source object with a description of 201 characters. -/
def oLong : StixObject := { description := String.mk (List.replicate 201 'a') }

/-- A source object with a short description. -/
def oShort : StixObject := { description := "abc" }

/-- A relationship object carrying no identifier. -/
def relNoId : StixObject := { type_ := "relationship" }

/-- An object of an unrecognized type. -/
def oBad : StixObject := { type_ := "x-mitre-tactic", id := some "x-mitre-tactic--0001" }

end CleanData

namespace CleanData

theorem charListLe_total : ∀ a b : List Char, charListLe a b = true ∨ charListLe b a = true
  | [], _ => Or.inl rfl
  | _ :: _, [] => Or.inr rfl
  | a :: as, b :: bs => by
    by_cases hab : a = b
    · subst hab
      simpa only [charListLe, if_pos rfl] using charListLe_total as bs
    · rcases lt_or_gt_of_ne hab with h | h
      · exact Or.inl (by simp [charListLe, hab, h])
      · exact Or.inr (by simp [charListLe, Ne.symm hab, h])

theorem charListLe_trans : ∀ a b c : List Char,
    charListLe a b = true → charListLe b c = true → charListLe a c = true
  | [], _, _, _, _ => rfl
  | _ :: _, [], _, h, _ => by simp [charListLe] at h
  | _ :: _, _ :: _, [], _, h => by simp [charListLe] at h
  | a :: as, b :: bs, c :: cs, h₁, h₂ => by
    simp only [charListLe] at h₁ h₂ ⊢
    by_cases hab : a = b <;> by_cases hbc : b = c
    · subst hab; subst hbc
      simp only [if_pos rfl] at h₁ h₂ ⊢
      exact charListLe_trans as bs cs h₁ h₂
    · subst hab
      simp only [if_neg hbc] at h₂ ⊢
      exact h₂
    · subst hbc
      simp only [if_neg hab] at h₁ ⊢
      exact h₁
    · rw [if_neg hab] at h₁
      rw [if_neg hbc] at h₂
      have hac : a < c := lt_trans (of_decide_eq_true h₁) (of_decide_eq_true h₂)
      have : a ≠ c := fun h => absurd (h ▸ hac) (lt_irrefl c)
      simp [this, hac]

theorem charListLe_antisymm : ∀ a b : List Char,
    charListLe a b = true → charListLe b a = true → a = b
  | [], [], _, _ => rfl
  | [], _ :: _, _, h => by simp [charListLe] at h
  | _ :: _, [], h, _ => by simp [charListLe] at h
  | a :: as, b :: bs, h₁, h₂ => by
    by_cases hab : a = b
    · subst hab
      simp only [charListLe, if_pos rfl] at h₁ h₂
      rw [charListLe_antisymm as bs h₁ h₂]
    · simp only [charListLe, if_neg hab, if_neg (Ne.symm hab)] at h₁ h₂
      exact absurd (of_decide_eq_true h₂) (lt_asymm (of_decide_eq_true h₁))

theorem insertByKey_perm (key : α → List Char) (x : α) :
    ∀ l : List α, (insertByKey key x l).Perm (x :: l)
  | [] => List.Perm.refl _
  | y :: ys => by
    unfold insertByKey
    split
    · exact List.Perm.refl _
    · exact ((insertByKey_perm key x ys).cons y).trans (List.Perm.swap x y ys)

theorem insertByKey_pairwise (key : α → List Char) (x : α) :
    ∀ l : List α, l.Pairwise (fun a b => charListLe (key a) (key b) = true) →
      (insertByKey key x l).Pairwise (fun a b => charListLe (key a) (key b) = true)
  | [], _ => List.pairwise_singleton _ _
  | y :: ys, h => by
    rcases List.pairwise_cons.mp h with ⟨hy, hys⟩
    unfold insertByKey
    split
    · rename_i hle
      refine List.pairwise_cons.mpr ⟨?_, h⟩
      intro z hz
      rcases List.mem_cons.mp hz with rfl | hz
      · exact hle
      · exact charListLe_trans _ _ _ hle (hy z hz)
    · rename_i hnle
      have hyx : charListLe (key y) (key x) = true :=
        (charListLe_total (key x) (key y)).resolve_left hnle
      refine List.pairwise_cons.mpr ⟨?_, insertByKey_pairwise key x ys hys⟩
      intro z hz
      rcases List.mem_cons.mp ((insertByKey_perm key x ys).mem_iff.mp hz) with rfl | hz
      · exact hyx
      · exact hy z hz

theorem sortByKey_perm (key : α → List Char) : ∀ l : List α, (sortByKey key l).Perm l
  | [] => List.Perm.refl _
  | x :: xs => ((insertByKey_perm key x (sortByKey key xs)).trans
      ((sortByKey_perm key xs).cons x))

theorem sortByKey_pairwise (key : α → List Char) :
    ∀ l : List α, (sortByKey key l).Pairwise (fun a b => charListLe (key a) (key b) = true)
  | [] => List.Pairwise.nil
  | x :: xs => insertByKey_pairwise key x (sortByKey key xs) (sortByKey_pairwise key xs)

theorem sorted_perm_nodup_eq (key : α → List Char) :
    ∀ l₁ l₂ : List α, l₁.Perm l₂ →
      l₁.Pairwise (fun a b => charListLe (key a) (key b) = true) →
      l₂.Pairwise (fun a b => charListLe (key a) (key b) = true) →
      (l₁.map key).Nodup → l₁ = l₂ := by
  intro l₁
  induction l₁ with
  | nil =>
    intro l₂ h _ _ _
    exact (h.symm.eq_nil).symm
  | cons a t₁ ih =>
    intro l₂ h h₁ h₂ hnd
    cases l₂ with
    | nil => exact absurd h.eq_nil (by simp)
    | cons b t₂ =>
      have hab : a = b := by
        by_contra hne
        have ha2 : a ∈ t₂ := by
          rcases List.mem_cons.mp (h.mem_iff.mp (List.mem_cons_self a t₁)) with h' | h'
          · exact absurd h' hne
          · exact h'
        have hb1 : b ∈ t₁ := by
          rcases List.mem_cons.mp (h.symm.mem_iff.mp (List.mem_cons_self b t₂)) with h' | h'
          · exact absurd h'.symm hne
          · exact h'
        have hkab : charListLe (key a) (key b) = true :=
          (List.pairwise_cons.mp h₁).1 b hb1
        have hkba : charListLe (key b) (key a) = true :=
          (List.pairwise_cons.mp h₂).1 a ha2
        have hk : key a = key b := charListLe_antisymm _ _ hkab hkba
        have hmem : key a ∈ t₁.map key := by
          rw [hk]; exact List.mem_map_of_mem key hb1
        rw [List.map_cons] at hnd
        exact absurd hmem (List.nodup_cons.mp hnd).1
      subst hab
      rw [List.map_cons] at hnd
      have := ih t₂ h.cons_inv (List.pairwise_cons.mp h₁).2 (List.pairwise_cons.mp h₂).2
        (List.nodup_cons.mp hnd).2
      rw [this]

end CleanData

namespace CleanData

theorem dictFind_cons_pos {rest : List (String × StixObject)} {p : String × StixObject}
    {k : String} (h : p.1 = k) : dictFind (p :: rest) k = some p.2 := by
  unfold dictFind
  rw [List.find?_cons_of_pos _ (by simpa using h)]
  rfl

theorem dictFind_cons_neg {rest : List (String × StixObject)} {p : String × StixObject}
    {k : String} (h : p.1 ≠ k) : dictFind (p :: rest) k = dictFind rest k := by
  unfold dictFind
  rw [List.find?_cons_of_neg _ (by simpa using h)]

theorem mem_dictInsert {d : List (String × StixObject)} {k : String} {v : StixObject}
    {p : String × StixObject} (h : p ∈ dictInsert d k v) : p ∈ d ∨ p = (k, v) := by
  unfold dictInsert at h
  split at h
  · rcases List.mem_map.mp h with ⟨q, hq, hqe⟩
    by_cases hk : q.1 = k
    · rw [if_pos hk] at hqe
      exact Or.inr hqe.symm
    · rw [if_neg hk] at hqe
      exact Or.inl (hqe ▸ hq)
  · rcases List.mem_append.mp h with h | h
    · exact Or.inl h
    · exact Or.inr (by simpa using h)

theorem dictInsert_keys_nodup {d : List (String × StixObject)} {k : String} {v : StixObject}
    (hnd : (d.map Prod.fst).Nodup) : ((dictInsert d k v).map Prod.fst).Nodup := by
  unfold dictInsert
  split
  · have heq : (d.map (fun p => if p.1 = k then (k, v) else p)).map Prod.fst = d.map Prod.fst := by
      rw [List.map_map]
      apply List.map_congr_left
      intro p _
      by_cases hk : p.1 = k
      · simp [hk]
      · simp [hk]
    rw [heq]
    exact hnd
  · rename_i hany
    have hk : k ∉ d.map Prod.fst := by
      intro hmem
      rcases List.mem_map.mp hmem with ⟨q, hq, hqe⟩
      exact hany (List.any_eq_true.mpr ⟨q, hq, by simpa using hqe⟩)
    have : (d.map Prod.fst ++ [k]).Nodup := by
      rw [List.nodup_append]
      refine ⟨hnd, List.nodup_singleton k, ?_⟩
      intro a ha hb
      rw [List.mem_singleton] at hb
      subst hb
      exact hk ha
    simpa using this

theorem dictFind_dictInsert_self {d : List (String × StixObject)} {k : String} {v : StixObject} :
    dictFind (dictInsert d k v) k = some v := by
  unfold dictInsert
  split
  · rename_i hany
    induction d with
    | nil => simp at hany
    | cons p rest ih =>
      rw [List.map_cons]
      by_cases hk : p.1 = k
      · rw [if_pos hk]
        exact dictFind_cons_pos rfl
      · rw [if_neg hk]
        rw [dictFind_cons_neg hk]
        rw [List.any_cons] at hany
        have hrest : (rest.any fun q => decide (q.1 = k)) = true := by
          cases hd : decide (p.1 = k) with
          | true => exact absurd (of_decide_eq_true hd) hk
          | false => rw [hd] at hany; simpa using hany
        exact ih hrest
  · rename_i hany
    induction d with
    | nil => exact dictFind_cons_pos rfl
    | cons p rest ih =>
      rw [List.any_cons] at hany
      have hp : p.1 ≠ k := fun h => hany (by simp [h])
      have hrest : ¬ (rest.any fun q => decide (q.1 = k)) = true := fun h => hany (by simp [h])
      rw [List.cons_append, dictFind_cons_neg hp]
      exact ih hrest

theorem dictFind_dictInsert_ne {d : List (String × StixObject)} {k k' : String} {v : StixObject}
    (hne : k' ≠ k) : dictFind (dictInsert d k v) k' = dictFind d k' := by
  unfold dictInsert
  split
  · rename_i hany
    clear hany
    induction d with
    | nil => rfl
    | cons p rest ih =>
      rw [List.map_cons]
      by_cases hk : p.1 = k
      · rw [if_pos hk]
        rw [dictFind_cons_neg (p := (k, v)) (Ne.symm hne)]
        rw [dictFind_cons_neg (show p.1 ≠ k' by rw [hk]; exact Ne.symm hne)]
        exact ih
      · rw [if_neg hk]
        by_cases hk' : p.1 = k'
        · rw [dictFind_cons_pos hk', dictFind_cons_pos hk']
        · rw [dictFind_cons_neg hk', dictFind_cons_neg hk']
          exact ih
  · rename_i hany
    clear hany
    induction d with
    | nil =>
      rw [List.nil_append, dictFind_cons_neg (p := (k, v)) (Ne.symm hne)]
    | cons p rest ih =>
      rw [List.cons_append]
      by_cases hk' : p.1 = k'
      · rw [dictFind_cons_pos hk', dictFind_cons_pos hk']
      · rw [dictFind_cons_neg hk', dictFind_cons_neg hk']
        exact ih

theorem dictFind_eq_none_of_not_mem_keys {d : List (String × StixObject)} {k : String}
    (h : k ∉ d.map Prod.fst) : dictFind d k = none := by
  induction d with
  | nil => rfl
  | cons p rest ih =>
    rw [List.map_cons, List.mem_cons, not_or] at h
    rw [dictFind_cons_neg (fun he => h.1 he.symm)]
    exact ih h.2

theorem dictUnion_find_none {k : String} :
    ∀ (b a : List (String × StixObject)), dictFind b k = none →
      dictFind (dictUnion a b) k = dictFind a k
  | [], _, _ => rfl
  | p :: rest, a, h => by
    by_cases hk : p.1 = k
    · rw [dictFind_cons_pos hk] at h
      exact absurd h (by simp)
    · rw [dictFind_cons_neg hk] at h
      calc dictFind (dictUnion a (p :: rest)) k
          = dictFind (dictUnion (dictInsert a p.1 p.2) rest) k := rfl
        _ = dictFind (dictInsert a p.1 p.2) k := dictUnion_find_none rest _ h
        _ = dictFind a k := dictFind_dictInsert_ne (fun he => hk he.symm)

theorem dictUnion_find_right {k : String} {v : StixObject} :
    ∀ (b a : List (String × StixObject)), (b.map Prod.fst).Nodup →
      dictFind b k = some v → dictFind (dictUnion a b) k = some v
  | [], _, _, h => by simp [dictFind] at h
  | p :: rest, a, hnd, h => by
    rw [List.map_cons] at hnd
    by_cases hk : p.1 = k
    · rw [dictFind_cons_pos hk] at h
      have hv : v = p.2 := (Option.some.inj h).symm
      have hrest : dictFind rest k = none := by
        apply dictFind_eq_none_of_not_mem_keys
        rw [← hk]
        exact (List.nodup_cons.mp hnd).1
      calc dictFind (dictUnion a (p :: rest)) k
          = dictFind (dictUnion (dictInsert a p.1 p.2) rest) k := rfl
        _ = dictFind (dictInsert a p.1 p.2) k := dictUnion_find_none rest _ hrest
        _ = some v := by rw [hk, dictFind_dictInsert_self, hv]
    · rw [dictFind_cons_neg hk] at h
      exact dictUnion_find_right rest (dictInsert a p.1 p.2) (List.nodup_cons.mp hnd).2 h

theorem mem_dictUnion {p : String × StixObject} :
    ∀ (b a : List (String × StixObject)), p ∈ dictUnion a b → p ∈ a ∨ p ∈ b
  | [], _, h => Or.inl h
  | q :: rest, a, h => by
    rcases mem_dictUnion rest (dictInsert a q.1 q.2) h with h' | h'
    · rcases mem_dictInsert h' with h'' | h''
      · exact Or.inl h''
      · exact Or.inr (List.mem_cons.mpr (Or.inl (by rw [h''])))
    · exact Or.inr (List.mem_cons_of_mem q h')

end CleanData

namespace CleanData

theorem bucketStep_keys_nodup {ty : String} {d : List (String × StixObject)} {o : StixObject}
    (hnd : (d.map Prod.fst).Nodup) : ((bucketStep ty d o).map Prod.fst).Nodup := by
  unfold bucketStep
  split
  · exact hnd
  · split
    · split
      · exact dictInsert_keys_nodup hnd
      · exact hnd
    · exact hnd

theorem mem_bucketStep {ty : String} {d : List (String × StixObject)} {o : StixObject}
    {p : String × StixObject} (h : p ∈ bucketStep ty d o) :
    p ∈ d ∨ (p.2 = o ∧ o.type_ = ty ∧ o.id = some p.1 ∧ p.1 ≠ "") := by
  unfold bucketStep at h
  split at h
  · exact Or.inl h
  · rename_i hrel
    split at h
    · rename_i i hid
      split at h
      · rename_i hcond
        rcases mem_dictInsert h with h' | h'
        · exact Or.inl h'
        · refine Or.inr ?_
          rw [h']
          exact ⟨rfl, hcond.2, by rw [hid], hcond.1⟩
      · exact Or.inl h
    · exact Or.inl h

theorem foldl_bucketStep_keys_nodup {ty : String} :
    ∀ (objs : List StixObject) (d : List (String × StixObject)),
      (d.map Prod.fst).Nodup → (((objs.foldl (bucketStep ty) d)).map Prod.fst).Nodup
  | [], _, hnd => hnd
  | o :: objs, d, hnd =>
    foldl_bucketStep_keys_nodup objs (bucketStep ty d o) (bucketStep_keys_nodup hnd)

theorem bucketOf_keys_nodup (ty : String) (objs : List StixObject) :
    ((bucketOf ty objs).map Prod.fst).Nodup :=
  foldl_bucketStep_keys_nodup objs [] List.Pairwise.nil

theorem mem_foldl_bucketStep {ty : String} {p : String × StixObject} :
    ∀ (objs : List StixObject) (d : List (String × StixObject)),
      p ∈ objs.foldl (bucketStep ty) d →
      p ∈ d ∨ (p.2 ∈ objs ∧ p.2.type_ = ty ∧ p.2.id = some p.1 ∧ p.1 ≠ "")
  | [], _, h => Or.inl h
  | o :: objs, d, h => by
    rcases mem_foldl_bucketStep objs (bucketStep ty d o) h with h' | h'
    · rcases mem_bucketStep h' with h'' | h''
      · exact Or.inl h''
      · refine Or.inr ⟨?_, ?_, ?_, h''.2.2.2⟩
        · rw [h''.1]; exact List.mem_cons_self o objs
        · rw [h''.1]; exact h''.2.1
        · rw [h''.1]; exact h''.2.2.1
    · exact Or.inr ⟨List.mem_cons_of_mem o h'.1, h'.2.1, h'.2.2.1, h'.2.2.2⟩

theorem mem_bucketOf {ty : String} {objs : List StixObject} {p : String × StixObject}
    (h : p ∈ bucketOf ty objs) :
    p.2 ∈ objs ∧ p.2.type_ = ty ∧ p.2.id = some p.1 ∧ p.1 ≠ "" := by
  rcases mem_foldl_bucketStep objs [] h with h' | h'
  · exact absurd h' (List.not_mem_nil p)
  · exact h'

end CleanData

namespace CleanData

theorem dedupLoop_cons_none {pd : Bundle} {p : String × StixObject}
    {ps : List (String × StixObject)} {acc : List TechniqueRecord} {seen : List String}
    (hx : extractTechniqueData p.2 pd = none) :
    dedupLoop pd (p :: ps) acc seen = dedupLoop pd ps acc seen := by
  simp only [dedupLoop, hx]

theorem dedupLoop_cons_some {pd : Bundle} {p : String × StixObject}
    {ps : List (String × StixObject)} {acc : List TechniqueRecord} {seen : List String}
    {r : TechniqueRecord} (hx : extractTechniqueData p.2 pd = some r) :
    dedupLoop pd (p :: ps) acc seen =
      if r.technique_id ∈ seen then dedupLoop pd ps acc seen
      else dedupLoop pd ps (acc ++ [r]) (r.technique_id :: seen) := by
  simp only [dedupLoop, hx]

theorem dedupLoop_fst_filter (pd : Bundle) (t : String) :
    ∀ (ps : List (String × StixObject)) (acc : List TechniqueRecord) (seen : List String),
      (dedupLoop pd ps acc seen).1.filter (fun r => r.technique_id = t)
        = acc.filter (fun r => r.technique_id = t)
          ++ (if t ∈ seen then []
              else ((ps.filterMap (fun p => extractTechniqueData p.2 pd)).filter
                (fun r => r.technique_id = t)).take 1)
  | [], acc, seen => by
    simp [dedupLoop]
  | p :: ps, acc, seen => by
    cases hx : extractTechniqueData p.2 pd with
    | none =>
      rw [dedupLoop_cons_none hx, dedupLoop_fst_filter pd t ps acc seen]
      simp only [List.filterMap_cons, hx]
    | some r =>
      rw [dedupLoop_cons_some hx]
      simp only [List.filterMap_cons, hx]
      by_cases hs : r.technique_id ∈ seen
      · rw [if_pos hs, dedupLoop_fst_filter pd t ps acc seen]
        by_cases ht : t ∈ seen
        · rw [if_pos ht, if_pos ht]
        · have hrt : ¬(r.technique_id = t) := fun h => ht (h ▸ hs)
          rw [if_neg ht, if_neg ht, List.filter_cons]
          simp [hrt]
      · rw [if_neg hs, dedupLoop_fst_filter pd t ps (acc ++ [r]) (r.technique_id :: seen),
          List.filter_append]
        by_cases ht : r.technique_id = t
        · have ht' : t ∉ seen := fun h => hs (ht.symm ▸ h)
          rw [if_pos (show t ∈ r.technique_id :: seen from ht ▸ List.mem_cons_self _ _),
            if_neg ht', List.filter_cons, List.filter_cons]
          simp [ht, List.append_assoc]
        · have hmem : (t ∈ r.technique_id :: seen) ↔ t ∈ seen := by
            rw [List.mem_cons]
            exact or_iff_right (fun h => ht h.symm)
          by_cases ht2 : t ∈ seen
          · rw [if_pos (hmem.mpr ht2), if_pos ht2, List.filter_cons]
            simp [ht]
          · rw [if_neg (fun h => ht2 (hmem.mp h)), if_neg ht2, List.filter_cons,
              List.filter_cons]
            simp [ht, List.append_assoc]

theorem dedupLoop_spec (pd : Bundle) :
    ∀ (ps : List (String × StixObject)) (acc : List TechniqueRecord) (seen : List String),
      ∃ pre : List TechniqueRecord,
        (dedupLoop pd ps acc seen).1 = acc ++ pre ∧
        (pre.map (fun r => r.technique_id)).Nodup ∧
        (∀ r ∈ pre, r.technique_id ∉ seen) ∧
        (∀ i, i ∈ (dedupLoop pd ps acc seen).2 ↔
          i ∈ seen ∨ i ∈ pre.map (fun r => r.technique_id))
  | [], acc, seen => ⟨[], by simp [dedupLoop], by simp, by simp, by simp [dedupLoop]⟩
  | p :: ps, acc, seen => by
    cases hx : extractTechniqueData p.2 pd with
    | none =>
      rw [dedupLoop_cons_none hx]
      exact dedupLoop_spec pd ps acc seen
    | some r =>
      rw [dedupLoop_cons_some hx]
      by_cases hs : r.technique_id ∈ seen
      · rw [if_pos hs]
        exact dedupLoop_spec pd ps acc seen
      · rw [if_neg hs]
        rcases dedupLoop_spec pd ps (acc ++ [r]) (r.technique_id :: seen) with
          ⟨pre', h1, h2, h3, h4⟩
        refine ⟨r :: pre', ?_, ?_, ?_, ?_⟩
        · rw [h1, List.append_assoc]
          rfl
        · rw [List.map_cons, List.nodup_cons]
          refine ⟨?_, h2⟩
          intro hmem
          rcases List.mem_map.mp hmem with ⟨r', hr', he⟩
          exact (h3 r' hr') (he ▸ List.mem_cons_self _ _)
        · intro r' hr'
          rcases List.mem_cons.mp hr' with rfl | hr'
          · exact hs
          · exact fun h => (h3 r' hr') (List.mem_cons_of_mem _ h)
        · intro i
          rw [h4 i, List.mem_cons, List.map_cons, List.mem_cons]
          tauto

theorem filter_length_le_one_of_nodup_map {t : String} :
    ∀ {l : List TechniqueRecord},
      (l.map (fun r => r.technique_id)).Nodup →
      (l.filter (fun r => r.technique_id = t)).length ≤ 1
  | [], _ => by simp
  | r :: rest, h => by
    rw [List.map_cons, List.nodup_cons] at h
    rw [List.filter_cons]
    by_cases ht : r.technique_id = t
    · have hrest : rest.filter (fun r => r.technique_id = t) = [] := by
        rw [List.filter_eq_nil_iff]
        intro r' hr' hc
        apply h.1
        rw [ht, ← of_decide_eq_true hc]
        exact List.mem_map_of_mem _ hr'
      simp [ht, hrest]
    · rw [if_neg (by simp [ht])]
      exact filter_length_le_one_of_nodup_map h.2

theorem perm_filter_eq_of_le_one {α : Type} {l₁ l₂ : List α} (hp : l₁.Perm l₂)
    (p : α → Bool) (hl : (l₁.filter p).length ≤ 1) : l₁.filter p = l₂.filter p := by
  have hf := hp.filter p
  cases hfl : l₁.filter p with
  | nil =>
    rw [hfl] at hf
    exact (hf.symm.eq_nil).symm ▸ rfl
  | cons a tl =>
    cases tl with
    | nil =>
      rw [hfl] at hf
      exact List.singleton_perm.mp hf
    | cons b tl' =>
      rw [hfl] at hl
      simp at hl
end CleanData

namespace CleanData

theorem processLoop_cons (f : InputFile) (rest : List InputFile) (seen : List String)
    (techs : List TechniqueRecord) (names : List String) (total : Nat) :
    processLoop (f :: rest) seen techs names total =
      processLoop rest
        (dedupLoop (processStixData f.objs) (processStixData f.objs).attack_patterns [] seen).2
        (if (dedupLoop (processStixData f.objs) (processStixData f.objs).attack_patterns
              [] seen).1.isEmpty then techs
         else sortByKey (fun r => r.technique_id.data)
           (techs ++ (dedupLoop (processStixData f.objs)
             (processStixData f.objs).attack_patterns [] seen).1))
        (names ++ [f.name])
        (total + (dedupLoop (processStixData f.objs)
          (processStixData f.objs).attack_patterns [] seen).1.length) := rfl

theorem processLoop_spec (t : String) :
    ∀ (fs : List InputFile) (seen : List String) (techs : List TechniqueRecord)
      (names : List String) (total : Nat),
      (techs.map (fun r => r.technique_id)).Nodup →
      (∀ i, i ∈ techs.map (fun r => r.technique_id) → i ∈ seen) →
      techs.Pairwise (fun a b => charListLe a.technique_id.data b.technique_id.data = true) →
      ((processLoop fs seen techs names total).1.map (fun r => r.technique_id)).Nodup ∧
      (processLoop fs seen techs names total).1.Pairwise
        (fun a b => charListLe a.technique_id.data b.technique_id.data = true) ∧
      (processLoop fs seen techs names total).1.filter (fun r => r.technique_id = t)
        = techs.filter (fun r => r.technique_id = t)
          ++ (if t ∈ seen then []
              else ((fs.flatMap fileResolve).filter (fun r => r.technique_id = t)).take 1)
  | [], seen, techs, names, total => fun h1 h2 h3 => by
    refine ⟨h1, h3, ?_⟩
    simp [processLoop]
  | f :: rest, seen, techs, names, total => fun h1 h2 h3 => by
    rcases dedupLoop_spec (processStixData f.objs) (processStixData f.objs).attack_patterns
      [] seen with ⟨pre, hpre1, hpre2, hpre3, hpre4⟩
    rw [List.nil_append] at hpre1
    have hfilterpre : pre.filter (fun r => r.technique_id = t)
        = if t ∈ seen then []
          else ((fileResolve f).filter (fun r => r.technique_id = t)).take 1 := by
      have hd := dedupLoop_fst_filter (processStixData f.objs) t
        (processStixData f.objs).attack_patterns [] seen
      rw [hpre1] at hd
      simpa using hd
    rw [processLoop_cons, hpre1, List.flatMap_cons, List.filter_append]
    by_cases hemp : pre.isEmpty
    · have hpre_nil : pre = [] := List.isEmpty_iff.mp hemp
      subst hpre_nil
      rw [if_pos (show ([] : List TechniqueRecord).isEmpty = true from rfl)]
      have h2' : ∀ i, i ∈ techs.map (fun r => r.technique_id) →
          i ∈ (dedupLoop (processStixData f.objs) (processStixData f.objs).attack_patterns
            [] seen).2 :=
        fun i hi => (hpre4 i).mpr (Or.inl (h2 i hi))
      rcases processLoop_spec t rest _ techs (names ++ [f.name]) (total + [].length)
        h1 h2' h3 with ⟨ih1, ih2, ih3⟩
      refine ⟨ih1, ih2, ?_⟩
      rw [ih3]
      by_cases ht : t ∈ seen
      · rw [if_pos ((hpre4 t).mpr (Or.inl ht)), if_pos ht]
      · have htake : ((fileResolve f).filter (fun r => r.technique_id = t)).take 1 = [] := by
          rw [if_neg ht] at hfilterpre
          exact hfilterpre.symm
        have hfe : (fileResolve f).filter (fun r => r.technique_id = t) = [] := by
          rcases List.take_eq_nil_iff.mp htake with h | h
          · exact absurd h (by simp)
          · exact h
        have ht' : t ∉ (dedupLoop (processStixData f.objs)
            (processStixData f.objs).attack_patterns [] seen).2 := by
          intro hmem
          rcases (hpre4 t).mp hmem with h | h
          · exact ht h
          · simp at h
        rw [if_neg ht', if_neg ht, hfe, List.nil_append]
    · have hpre_ne : ¬ (pre.isEmpty = true) := hemp
      rw [if_neg hpre_ne]
      have hnodup_cat : (((techs ++ pre).map (fun r => r.technique_id))).Nodup := by
        rw [List.map_append, List.nodup_append]
        refine ⟨h1, hpre2, ?_⟩
        intro i hi hip
        rcases List.mem_map.mp hip with ⟨r, hr, he⟩
        exact (hpre3 r hr) (he ▸ h2 i hi)
      have hperm : (sortByKey (fun r => r.technique_id.data) (techs ++ pre)).Perm
          (techs ++ pre) := sortByKey_perm _ _
      have i1' : ((sortByKey (fun r => r.technique_id.data) (techs ++ pre)).map
          (fun r => r.technique_id)).Nodup :=
        ((hperm.map (fun r => r.technique_id)).nodup_iff).mpr hnodup_cat
      have i2' : ∀ i, i ∈ (sortByKey (fun r => r.technique_id.data) (techs ++ pre)).map
          (fun r => r.technique_id) →
          i ∈ (dedupLoop (processStixData f.objs) (processStixData f.objs).attack_patterns
            [] seen).2 := by
        intro i hi
        have : i ∈ (techs ++ pre).map (fun r => r.technique_id) :=
          (hperm.map (fun r => r.technique_id)).mem_iff.mp hi
        rw [List.map_append, List.mem_append] at this
        rcases this with h | h
        · exact (hpre4 i).mpr (Or.inl (h2 i h))
        · exact (hpre4 i).mpr (Or.inr h)
      have i3' := sortByKey_pairwise (fun r : TechniqueRecord => r.technique_id.data)
        (techs ++ pre)
      rcases processLoop_spec t rest _ _ (names ++ [f.name]) (total + pre.length)
        i1' i2' i3' with ⟨ih1, ih2, ih3⟩
      refine ⟨ih1, ih2, ?_⟩
      rw [ih3]
      have hsfilter : (sortByKey (fun r => r.technique_id.data) (techs ++ pre)).filter
          (fun r => r.technique_id = t)
          = techs.filter (fun r => r.technique_id = t)
            ++ pre.filter (fun r => r.technique_id = t) := by
        rw [← List.filter_append]
        exact (perm_filter_eq_of_le_one hperm.symm _
          (filter_length_le_one_of_nodup_map hnodup_cat)).symm
      rw [hsfilter]
      by_cases ht : t ∈ seen
      · have hprefe : pre.filter (fun r => r.technique_id = t) = [] := by
          rw [if_pos ht] at hfilterpre
          exact hfilterpre
        rw [if_pos ((hpre4 t).mpr (Or.inl ht)), if_pos ht, hprefe]
        simp
      · have htechfe : techs.filter (fun r => r.technique_id = t) = [] := by
          rw [List.filter_eq_nil_iff]
          intro r hr hc
          apply ht
          apply h2
          have hrt : r.technique_id = t := of_decide_eq_true hc
          rw [← hrt]
          exact List.mem_map_of_mem _ hr
        have hprefilter : pre.filter (fun r => r.technique_id = t)
            = ((fileResolve f).filter (fun r => r.technique_id = t)).take 1 := by
          rw [if_neg ht] at hfilterpre
          exact hfilterpre
        by_cases hf : (fileResolve f).filter (fun r => r.technique_id = t) = []
        · have hpf : pre.filter (fun r => r.technique_id = t) = [] := by
            rw [hprefilter, hf]
            rfl
          have htpre : t ∉ pre.map (fun r => r.technique_id) := by
            intro hmem
            rcases List.mem_map.mp hmem with ⟨r, hr, he⟩
            have : r ∈ pre.filter (fun r => r.technique_id = t) :=
              List.mem_filter.mpr ⟨hr, by simp [he]⟩
            rw [hpf] at this
            exact absurd this (List.not_mem_nil r)
          have ht' : t ∉ (dedupLoop (processStixData f.objs)
              (processStixData f.objs).attack_patterns [] seen).2 := by
            intro hmem
            rcases (hpre4 t).mp hmem with h | h
            · exact ht h
            · exact htpre h
          rw [if_neg ht', if_neg ht, htechfe, hpf, hf]
          simp
        · rcases List.exists_cons_of_ne_nil hf with ⟨r0, tl, hq⟩
          have hpf : pre.filter (fun r => r.technique_id = t) = [r0] := by
            rw [hprefilter, hq]
            rfl
          have htpre : t ∈ pre.map (fun r => r.technique_id) := by
            have hr0 : r0 ∈ pre.filter (fun r => r.technique_id = t) := by
              rw [hpf]
              exact List.mem_cons_self _ _
            rcases List.mem_filter.mp hr0 with ⟨hr0m, hr0t⟩
            exact (of_decide_eq_true hr0t) ▸ List.mem_map_of_mem _ hr0m
          rw [if_pos ((hpre4 t).mpr (Or.inr htpre)), if_neg ht, htechfe, hpf, hq]
          simp

end CleanData

namespace CleanData

theorem foldl_append_filter_map {α β : Type} (p : α → Bool) (g : α → β) :
    ∀ (l : List α) (acc : List β),
      l.foldl (fun a x => if p x then a ++ [g x] else a) acc = acc ++ (l.filter p).map g
  | [], acc => by simp
  | x :: l, acc => by
    simp only [List.foldl_cons, List.filter_cons]
    by_cases hx : p x = true
    · rw [if_pos hx, if_pos hx, foldl_append_filter_map p g l (acc ++ [g x]), List.map_cons,
        List.append_assoc, List.singleton_append]
    · rw [if_neg hx, if_neg hx, foldl_append_filter_map p g l acc]

/-- C1: the claim states that an edge contributes a reference to a technique's
record only when its `target_ref` equals that attack pattern's own object
identifier.  The code checks only the `attack-pattern--` prefix: in `stixC1`
no edge targets `apAlpha`'s identifier, yet `apAlpha`'s resolved record
carries the mitigation reference contributed by the edge that targets
`apBeta`.  This contradicts the claim (and the source's own comment), so the
prefix-only match is a code bug. -/
theorem C1_prefix_only_match_bug :
    (∀ rel ∈ (processStixData stixC1).relationships,
      rel.target_ref ≠ apAlpha.id.getD "") ∧
    (extractTechniqueData apAlpha (processStixData stixC1)).map (fun r => r.mitigations)
      = some [mkBriefRef coaBlock] := by
  decide

/-- C4: the brief reference stored for a mitigation/group/software source
object keeps descriptions of length at most 200 unchanged, and truncates
longer ones to their first 200 characters plus a three-character ellipsis
(stored length at most 203). -/
theorem C4_truncation_law (o : StixObject) :
    (200 < o.description.data.length →
      (mkBriefRef o).description.data = o.description.data.take 200 ++ "...".data ∧
      (mkBriefRef o).description.data.length ≤ 203) ∧
    (o.description.data.length ≤ 200 →
      (mkBriefRef o).description = o.description) := by
  have hdesc : (mkBriefRef o).description = truncateDesc o.description := rfl
  constructor
  · intro h
    have htd : truncateDesc o.description
        = String.mk (o.description.data.take 200 ++ "...".data) := by
      unfold truncateDesc
      rw [if_pos h]
    constructor
    · rw [hdesc, htd]
    · rw [hdesc, htd]
      show (o.description.data.take 200 ++ "...".data).length ≤ 203
      rw [List.length_append, List.length_take]
      have hm : min 200 o.description.data.length = 200 := Nat.min_eq_left (Nat.le_of_lt h)
      rw [hm]
      simp
  · intro h
    rw [hdesc]
    unfold truncateDesc
    rw [if_neg (Nat.not_lt.mpr h)]

set_option maxRecDepth 4096 in
/-- C4 witness: a 201-character description is truncated to 200 characters
plus the ellipsis; a 3-character description is stored unchanged. -/
theorem C4_truncation_law_witness :
    (200 < oLong.description.data.length ∧
      (mkBriefRef oLong).description.data
        = oLong.description.data.take 200 ++ "...".data ∧
      (mkBriefRef oLong).description.data.length ≤ 203) ∧
    (oShort.description.data.length ≤ 200 ∧
      (mkBriefRef oShort).description = oShort.description) :=
  ⟨⟨by decide, ((C4_truncation_law oLong).1 (by decide)).1,
    ((C4_truncation_law oLong).1 (by decide)).2⟩,
   ⟨by decide, (C4_truncation_law oShort).2 (by decide)⟩⟩

/-- C6 counterexample: the claim says the keyword-containing fragments are
retained (verbatim) with a trailing period re-appended; the code strips each
fragment's surrounding whitespace first.  On this description the fragment
after the first period starts with a space, so the two disagree. -/
theorem C6_literal_counterexample :
    procedureExamples "Use X. For example, launch Y."
      ≠ procedureExamplesClaim "Use X. For example, launch Y." := by
  decide

/-- C6 amended: the procedure-example list is empty unless the lowercased
description contains `example` or `observed`; when it does, the description
is split on the period character and exactly the fragments whose lowercase
form contains `example`, `observed`, `used by`, or `employed by` are
retained, in encounter order, each stripped of surrounding whitespace with a
trailing period re-appended. -/
theorem C6_amended_with_strip (d : String) :
    procedureExamples d = procedureExamplesAmended d := by
  unfold procedureExamples procedureExamplesAmended
  by_cases h : (containsSub "example".data (lowerL d.data)
      || containsSub "observed".data (lowerL d.data)) = true
  · rw [if_pos h, if_pos h]
    simpa using foldl_append_filter_map
      (fun s => keywordList.any (fun kw => containsSub kw (lowerL s)))
      (fun fr => String.mk (stripL fr ++ ['.'])) (splitOnChar '.' d.data) []
  · rw [if_neg h, if_neg h]

/-- C8 counterexample: the claim says every object lacking an identifier is
absent from the relationship-edge sequence; but a `relationship`-typed object
with no identifier is appended to the edge sequence (the code checks the
type before the identifier). -/
theorem C8_relationship_without_id_kept :
    relNoId.id = none ∧ relNoId.type_ = "relationship" ∧
    relNoId ∈ (processStixData [relNoId]).relationships := by
  decide

/-- C8 amended: an object lacking a recognized type, or a non-relationship
object lacking a truthy identifier, appears in none of the four typed
buckets and not in the relationship-edge sequence; `relationship`-typed
objects, however, go to the edge sequence regardless of identifier. -/
theorem C8_amended_partition_drops (objs : List StixObject) (o : StixObject)
    (ho : o ∈ objs) :
    ((o.type_ ∉ ["attack-pattern", "course-of-action", "intrusion-set", "malware",
        "tool", "relationship"] ∨
      (o.type_ ≠ "relationship" ∧ idTruthy o.id = false)) →
      (∀ p ∈ (processStixData objs).attack_patterns, p.2 ≠ o) ∧
      (∀ p ∈ (processStixData objs).mitigations, p.2 ≠ o) ∧
      (∀ p ∈ (processStixData objs).groups, p.2 ≠ o) ∧
      (∀ p ∈ (processStixData objs).software, p.2 ≠ o) ∧
      o ∉ (processStixData objs).relationships) ∧
    (o.type_ = "relationship" → o ∈ (processStixData objs).relationships) := by
  constructor
  · intro h
    have hbucket : ∀ ty : String, ty ∈ ["attack-pattern", "course-of-action",
        "intrusion-set", "malware", "tool"] →
        ∀ p ∈ bucketOf ty objs, p.2 ≠ o := by
      intro ty hty p hp he
      rcases mem_bucketOf hp with ⟨_, hpt, hpid, hpne⟩
      have hot : o.type_ = ty := by rw [← he]; exact hpt
      have hoid : o.id = some p.1 := by rw [← he]; exact hpid
      rcases h with h | h
      · apply h
        rw [hot]
        simp only [List.mem_cons, List.mem_singleton] at hty ⊢
        tauto
      · have hfalse := h.2
        rw [hoid] at hfalse
        simp [idTruthy] at hfalse
        exact hpne hfalse
    refine ⟨hbucket "attack-pattern" (by simp), hbucket "course-of-action" (by simp),
      hbucket "intrusion-set" (by simp), ?_, ?_⟩
    · intro p hp
      rcases mem_dictUnion _ _ hp with h' | h'
      · exact hbucket "malware" (by simp) p h'
      · exact hbucket "tool" (by simp) p h'
    · intro hmem
      have : o.type_ = "relationship" := by
        have := List.mem_filter.mp hmem
        exact of_decide_eq_true this.2
      rcases h with h | h
      · exact h (by simp [this])
      · exact h.1 this
  · intro hrel
    exact List.mem_filter.mpr ⟨ho, by simp [hrel]⟩

/-- C8 witness: an object of unrecognized type is absent from all buckets and
from the edge sequence, while the identifier-less relationship object of the
counterexample is kept in the edge sequence. -/
theorem C8_amended_partition_drops_witness :
    oBad ∈ [oBad, relNoId] ∧
    ((∀ p ∈ (processStixData [oBad, relNoId]).attack_patterns, p.2 ≠ oBad) ∧
     (∀ p ∈ (processStixData [oBad, relNoId]).mitigations, p.2 ≠ oBad) ∧
     (∀ p ∈ (processStixData [oBad, relNoId]).groups, p.2 ≠ oBad) ∧
     (∀ p ∈ (processStixData [oBad, relNoId]).software, p.2 ≠ oBad) ∧
     oBad ∉ (processStixData [oBad, relNoId]).relationships) ∧
    relNoId ∈ (processStixData [oBad, relNoId]).relationships :=
  ⟨by decide,
   (C8_amended_partition_drops [oBad, relNoId] oBad (by decide)).1 (by decide),
   (C8_amended_partition_drops [oBad, relNoId] relNoId (by decide)).2 (by decide)⟩

end CleanData

namespace CleanData

/-- C2: for every folder, the output document's techniques list is sorted in
ascending lexicographic order of `technique_id` and carries no duplicate
`technique_id`, across all files processed into the document. -/
theorem C2_output_sorted_and_unique (folderLabel : String) (files : List InputFile) :
    (processFolder folderLabel files).techniques.Pairwise
      (fun a b => charListLe a.technique_id.data b.technique_id.data = true) ∧
    ((processFolder folderLabel files).techniques.map (fun r => r.technique_id)).Nodup := by
  have h := processLoop_spec "" (sortByKey (fun f => f.name.data) files) [] [] [] 0
    (by simp) (by simp) List.Pairwise.nil
  exact ⟨h.2.1, h.1⟩

/-- C3: when at least one file of the folder resolves a record with
identifier `t`, the output document contains exactly one record for `t`,
namely the first record resolved in lexicographic filename order (ties
within one file resolved by attack-pattern order); any later duplicate is
dropped. -/
theorem C3_first_file_wins (folderLabel : String) (files : List InputFile) (t : String)
    (h : ((sortByKey (fun f => f.name.data) files).flatMap fileResolve).filter
      (fun r => r.technique_id = t) ≠ []) :
    (processFolder folderLabel files).techniques.filter (fun r => r.technique_id = t)
      = (((sortByKey (fun f => f.name.data) files).flatMap fileResolve).filter
          (fun r => r.technique_id = t)).take 1 ∧
    ((processFolder folderLabel files).techniques.filter
      (fun r => r.technique_id = t)).length = 1 := by
  have hs := processLoop_spec t (sortByKey (fun f => f.name.data) files) [] [] [] 0
    (by simp) (by simp) List.Pairwise.nil
  have heq : (processFolder folderLabel files).techniques.filter
      (fun r => r.technique_id = t)
      = (((sortByKey (fun f => f.name.data) files).flatMap fileResolve).filter
          (fun r => r.technique_id = t)).take 1 := by
    have h3 := hs.2.2
    rw [List.filter_nil, List.nil_append, if_neg (List.not_mem_nil t)] at h3
    exact h3
  refine ⟨heq, ?_⟩
  rw [heq]
  rcases List.exists_cons_of_ne_nil h with ⟨r0, tl, hq⟩
  rw [hq]
  rfl

/-- C3 witness: two files each resolving `T1059`; the output of the folder
contains exactly one `T1059` record, the first one in sorted file order. -/
theorem C3_first_file_wins_witness :
    ((sortByKey (fun f => f.name.data) [fileB, fileA]).flatMap fileResolve).filter
      (fun r => r.technique_id = "T1059") ≠ [] ∧
    (processFolder "enterprise-attack" [fileB, fileA]).techniques.filter
      (fun r => r.technique_id = "T1059")
      = (((sortByKey (fun f => f.name.data) [fileB, fileA]).flatMap fileResolve).filter
          (fun r => r.technique_id = "T1059")).take 1 ∧
    ((processFolder "enterprise-attack" [fileB, fileA]).techniques.filter
      (fun r => r.technique_id = "T1059")).length = 1 :=
  ⟨by decide,
   (C3_first_file_wins "enterprise-attack" [fileB, fileA] "T1059" (by decide)).1,
   (C3_first_file_wins "enterprise-attack" [fileB, fileA] "T1059" (by decide)).2⟩

/-- C5: when one bundle holds a malware object and a tool object under the
same identifier, the software bucket maps that identifier to the tool object
in its entirety, and a `uses` edge from that identifier (not resolving as a
group) therefore yields the brief reference built from the tool object, with
the malware object's fields nowhere involved. -/
theorem C5_tool_overrides_malware (objs : List StixObject) (i : String)
    (m tObj : StixObject)
    (hm : dictFind (bucketOf "malware" objs) i = some m)
    (ht : dictFind (bucketOf "tool" objs) i = some tObj)
    (grp mtg : List (String × StixObject)) (hg : dictFind grp i = none)
    (rel : StixObject) (hrt : rel.relationship_type = "uses") (hsrc : rel.source_ref = i)
    (htar : strStartsWith rel.target_ref "attack-pattern--" = true) (tid : String) :
    dictFind (processStixData objs).software i = some tObj ∧
    (findRelationships tid [rel] mtg grp (processStixData objs).software).software
      = [mkBriefRef tObj] := by
  have hsw : dictFind (processStixData objs).software i = some tObj := by
    show dictFind (dictUnion (bucketOf "malware" objs) (bucketOf "tool" objs)) i
      = some tObj
    exact dictUnion_find_right _ _ (bucketOf_keys_nodup "tool" objs) ht
  refine ⟨hsw, ?_⟩
  unfold findRelationships
  simp only [List.foldl_cons, List.foldl_nil]
  rw [if_pos htar,
    if_neg (show ¬(rel.relationship_type = "mitigates") by rw [hrt]; decide),
    if_pos hrt, hsrc, hg, hsw]
  rfl

/-- C5 witness: with `malwS` and `toolS` sharing one identifier in a bundle,
the software bucket resolves to the tool object and the single `uses` edge
yields exactly the tool-derived brief reference. -/
theorem C5_tool_overrides_malware_witness :
    dictFind (bucketOf "malware" [malwS, toolS, relUsesS]) "software--s1" = some malwS ∧
    dictFind (processStixData [malwS, toolS, relUsesS]).software "software--s1"
      = some toolS ∧
    (findRelationships "attack-pattern--alpha" [relUsesS] [] []
      (processStixData [malwS, toolS, relUsesS]).software).software
      = [mkBriefRef toolS] :=
  ⟨by decide,
   (C5_tool_overrides_malware [malwS, toolS, relUsesS] "software--s1" malwS toolS
     (by decide) (by decide) [] [] rfl relUsesS rfl rfl (by decide)
     "attack-pattern--alpha").1,
   (C5_tool_overrides_malware [malwS, toolS, relUsesS] "software--s1" malwS toolS
     (by decide) (by decide) [] [] rfl relUsesS rfl rfl (by decide)
     "attack-pattern--alpha").2⟩

/-- C7: an attack pattern without a MITRE external identifier resolves to no
record (a `none` result, not an error), and its presence among a file's
attack patterns contributes nothing to the per-file resolution loop, so it
appears nowhere in the output document. -/
theorem C7_missing_mitre_id_excluded (pd : Bundle) (ap : StixObject)
    (h : extractTechniqueId ap.external_references = none) :
    extractTechniqueData ap pd = none ∧
    ∀ (ps₁ ps₂ : List (String × StixObject)) (k : String)
      (acc : List TechniqueRecord) (seen : List String),
      dedupLoop pd (ps₁ ++ (k, ap) :: ps₂) acc seen = dedupLoop pd (ps₁ ++ ps₂) acc seen := by
  have hnone : extractTechniqueData ap pd = none := by
    unfold extractTechniqueData
    rw [h]
  refine ⟨hnone, ?_⟩
  intro ps₁
  induction ps₁ with
  | nil =>
    intro ps₂ k acc seen
    rw [List.nil_append, List.nil_append,
      dedupLoop_cons_none (show extractTechniqueData (k, ap).2 pd = none from hnone)]
  | cons p ps₁ ih =>
    intro ps₂ k acc seen
    rw [List.cons_append, List.cons_append]
    cases hx : extractTechniqueData p.2 pd with
    | none =>
      rw [dedupLoop_cons_none hx, dedupLoop_cons_none hx]
      exact ih ps₂ k acc seen
    | some r =>
      rw [dedupLoop_cons_some hx, dedupLoop_cons_some hx]
      by_cases hs : r.technique_id ∈ seen
      · rw [if_pos hs, if_pos hs]
        exact ih ps₂ k acc seen
      · rw [if_neg hs, if_neg hs]
        exact ih ps₂ k (acc ++ [r]) (r.technique_id :: seen)

/-- C7 witness: a concrete attack pattern with only a CAPEC reference
resolves to `none`, and removing it from a file's attack-pattern bucket
leaves the resolution loop's result unchanged. -/
theorem C7_missing_mitre_id_excluded_witness :
    extractTechniqueId apNoMitre.external_references = none ∧
    extractTechniqueData apNoMitre (processStixData [apNoMitre]) = none ∧
    dedupLoop (processStixData [apNoMitre]) [("attack-pattern--nomitre", apNoMitre)] [] []
      = dedupLoop (processStixData [apNoMitre]) [] [] [] :=
  ⟨by decide,
   (C7_missing_mitre_id_excluded (processStixData [apNoMitre]) apNoMitre (by decide)).1,
   by
    have h := (C7_missing_mitre_id_excluded (processStixData [apNoMitre]) apNoMitre
      (by decide)).2 [] [] "attack-pattern--nomitre" [] []
    simpa using h⟩

/-- C9: the folder-processing step is a pure function of the set of input
files: presenting the same distinct-named files in any order (as an OS
directory listing may) yields the same output document, so two runs on an
unchanged folder produce identical documents. -/
theorem C9_deterministic_processing (folderLabel : String)
    (files₁ files₂ : List InputFile) (hperm : files₁.Perm files₂)
    (hnd : (files₁.map (fun f => f.name)).Nodup) :
    processFolder folderLabel files₁ = processFolder folderLabel files₂ := by
  have hinj : Function.Injective String.data := by
    intro a b hab
    cases a
    cases b
    congr 1
  have hkey : (files₁.map (fun f => f.name.data)).Nodup := by
    have hrw : files₁.map (fun f => f.name.data)
        = (files₁.map (fun f => f.name)).map String.data := by
      rw [List.map_map]
      rfl
    rw [hrw]
    exact hnd.map hinj
  have hsort : sortByKey (fun f => f.name.data) files₁
      = sortByKey (fun f => f.name.data) files₂ := by
    apply sorted_perm_nodup_eq (fun f => f.name.data)
    · exact ((sortByKey_perm _ files₁).trans hperm).trans (sortByKey_perm _ files₂).symm
    · exact sortByKey_pairwise _ _
    · exact sortByKey_pairwise _ _
    · exact ((sortByKey_perm _ files₁).map _).nodup_iff.mpr hkey
  unfold processFolder
  rw [hsort]

/-- C9 witness: the two-file folder processed in either presentation order
yields the same document. -/
theorem C9_deterministic_processing_witness :
    processFolder "enterprise-attack" [fileB, fileA]
      = processFolder "enterprise-attack" [fileA, fileB] :=
  C9_deterministic_processing "enterprise-attack" [fileB, fileA] [fileA, fileB]
    (List.Perm.swap fileA fileB []) (by decide)

/-- C10: when the first MITRE external reference carrying an `external_id`
carries the empty string, identifier extraction returns that empty string,
yet the resolver treats the technique as having no identifier and yields no
record, exactly as if no MITRE reference existed. -/
theorem C10_empty_external_id_excluded (pd : Bundle) (ap : StixObject)
    (refs₁ refs₂ : List ExtRef) (r : ExtRef)
    (h1 : ap.external_references = refs₁ ++ r :: refs₂)
    (h2 : ∀ r' ∈ refs₁, ¬(r'.source_name = "mitre-attack" ∧ r'.external_id.isSome))
    (h3 : r.source_name = "mitre-attack") (h4 : r.external_id = some "") :
    extractTechniqueId ap.external_references = some "" ∧
    extractTechniqueData ap pd = none := by
  have hextract : ∀ rs : List ExtRef,
      (∀ r' ∈ rs, ¬(r'.source_name = "mitre-attack" ∧ r'.external_id.isSome)) →
      extractTechniqueId (rs ++ r :: refs₂) = some "" := by
    intro rs
    induction rs with
    | nil =>
      intro _
      rw [List.nil_append]
      unfold extractTechniqueId
      rw [if_pos ⟨h3, by rw [h4]; rfl⟩]
      exact h4
    | cons r' rest ih =>
      intro hr
      rw [List.cons_append]
      unfold extractTechniqueId
      rw [if_neg (hr r' (List.mem_cons_self _ _))]
      exact ih (fun x hx => hr x (List.mem_cons_of_mem _ hx))
  have hid : extractTechniqueId ap.external_references = some "" := by
    rw [h1]
    exact hextract refs₁ h2
  refine ⟨hid, ?_⟩
  unfold extractTechniqueData
  rw [hid]
  simp

/-- C10 witness: the concrete attack pattern whose single MITRE reference
carries an empty `external_id` extracts `some ""` and resolves to `none`. -/
theorem C10_empty_external_id_excluded_witness :
    extractTechniqueId apEmptyId.external_references = some "" ∧
    extractTechniqueData apEmptyId (processStixData [apEmptyId]) = none :=
  C10_empty_external_id_excluded (processStixData [apEmptyId]) apEmptyId [] [] refMitreEmpty
    (by decide) (by decide) (by decide) (by decide)

end CleanData
